import Mathlib

/-!
Verification of the Compiler orchestrator of `bundler-tools`
(`packages/bundler/src/lib/compiler.ts`), as a shallow embedding.

The embedding models:
* `normalizeOptions` (compiler.ts lines 22-40) over a sparse option record;
* the wrapper codegen `getRequire` / `getFooter` (lines 58-109) as the
  literal template strings they produce;
* `Compiler.build` (lines 136-202) as a pure step function from a compiler
  state and the outcome the engine would report, to the new state plus a
  trace of hook invocations, engine calls, filesystem-adapter calls and
  any exception propagated to the caller;
* the debounced watcher callback installed in the constructor
  (lines 117-131), with the leading-edge semantics of `debounce(fn, 500, true)`;
* the `__cp` helper emitted inside the footer text (lines 93-104), as a
  semantic model of JS objects with (possibly getter-backed) own properties.

Paths are modelled POSIX-style (`path.isAbsolute p` = `p` starts with "/",
`path.join a b` = `a ++ "/" ++ b` without `..`-normalisation, which no
theorem below depends on).
-/

namespace Bundler

/-! ## Basic data -/

inductive Platform
  | node
  | browser
  deriving DecidableEq, Repr

/-- Identity of a filesystem adapter: the host `fs` module or a user-supplied
adapter (`options.fileSystem ?? fs` in `normalizeOptions`). Only the identity
matters to the orchestrator model; the calls it receives are traced. -/
inductive FsAdapterRef
  | hostFs
  | custom (id : Nat)
  deriving DecidableEq, Repr

/-- Presence of the optional lifecycle hooks (`hooks.start` / `hooks.done`).
The TS hooks object holds optional callbacks; the orchestrator invokes them
through optional chaining, so only their presence decides whether an
invocation happens. -/
structure Hooks where
  hasStart : Bool := false
  hasDone : Bool := false
  deriving DecidableEq, Repr

/-- Sparse user-facing `CompilerOptions` (the `../types` module itself is not
in the sources; fields and defaults are read off `normalizeOptions`,
compiler.ts lines 22-40, which handles each field with `??`). -/
structure CompilerOptions where
  input : String
  output : String
  fileSystem : Option FsAdapterRef := none
  unpkg : Option Bool := none
  watch : Option Bool := none
  plugins : Option (List String) := none
  hooks : Option Hooks := none
  cwd : Option String := none
  external : Option (List String) := none
  platform : Option Platform := none
  format : Option String := none
  memfs : Option Bool := none
  globalName : Option String := none
  http : Option Bool := none
  deriving DecidableEq, Repr

/-- `Required<CompilerOptions>`: every field populated. -/
structure ROptions where
  input : String
  output : String
  fileSystem : FsAdapterRef
  unpkg : Bool
  watch : Bool
  plugins : List String
  hooks : Hooks
  cwd : String
  external : List String
  platform : Platform
  format : String
  memfs : Bool
  globalName : String
  http : Bool
  deriving DecidableEq, Repr

/-- `path.isAbsolute`, POSIX model. -/
def isAbsolute (p : String) : Bool := p.startsWith "/"

/-- `path.join cwd p`, POSIX model without `..` normalisation. -/
def pathJoin (a b : String) : String := a ++ "/" ++ b

/-- compiler.ts lines 18-20. -/
def ensureAbsolutePath (filepath : String) (cwd : String) : String :=
  if isAbsolute filepath then filepath else pathJoin cwd filepath

/-- compiler.ts lines 22-40. `procCwd` stands for `process.cwd()`. -/
def normalizeOptions (procCwd : String) (options : CompilerOptions) : ROptions :=
  let cwd := options.cwd.getD procCwd
  { input := ensureAbsolutePath options.input cwd
    output := ensureAbsolutePath options.output cwd
    fileSystem := options.fileSystem.getD .hostFs
    unpkg := options.unpkg.getD false
    watch := options.watch.getD false
    plugins := options.plugins.getD []
    hooks := options.hooks.getD {}
    cwd := cwd
    external := options.external.getD []
    platform := options.platform.getD .node
    format := options.format.getD "iife"
    memfs := options.memfs.getD false
    globalName := options.globalName.getD "bundler"
    http := options.http.getD false }

/-! ## Wrapper codegen (compiler.ts lines 58-109) -/

/-- The quote character `'` used around each external name. -/
def qc : Char := '\x27'

/-- `` `'${x}'` `` from compiler.ts line 60. -/
def quote1 (x : String) : String := "\x27" ++ x ++ "\x27"

/-- `Array.prototype.join(", ")`. -/
def joinComma : List String → String
  | [] => ""
  | [x] => x
  | x :: y :: xs => x ++ ", " ++ joinComma (y :: xs)

/-- `external.map((x) => `'${x}'`).join(", ")` (compiler.ts line 60). -/
def defineDeps (external : List String) : String :=
  joinComma (external.map quote1)

/-- The banner template up to the first `${defineDeps}` interpolation
(compiler.ts lines 61-69, with `amdLoader = "define"` inlined). -/
def bannerPre : String :=
  "\n(function (g, f) \x7b\n  const requireFunc = (dep) => \x7b\n    console.log(dep, window[dep])\n    return window[dep];\n  \x7d\n  var hasExports = typeof exports === \x27object\x27;\n  if (typeof define === \"function\" && define.amd) \x7b\n    const defineDepsList = ["

/-- The banner template between the two `${defineDeps}` interpolations
(compiler.ts lines 69-70, with `amdLoader = "define"` inlined). -/
def bannerMid : String := "];\n    define("

/-- The banner template after the second `${defineDeps}` interpolation
(compiler.ts lines 70-86). -/
def bannerPost : String :=
  ", function() \x7b\n      const args = Array.from(arguments);\n      f((dep) => \x7b\n        const index = defineDepsList.indexOf(dep);\n        return args[index];\n      \x7d);\n    \x7d);\n  \x7d else if (typeof module === \"object\" && module.exports) \x7b\n    module.exports = f((dep) => require(dep));\n  \x7d else \x7b\n    var m = f((dep) =>  window[dep]);\n    var root = hasExports ? exports : g;\n    for(var i in m) root[i] = m[i];\n  \x7d\x7d(typeof self !== \x27undefined\x27 ? self : this, (require) => \x7b\nvar exports = \x7b\x7d;\nvar module = \x7b exports \x7d;\n  "

/-- compiler.ts lines 58-87: the banner (a JS template literal with the
`${defineDeps}` interpolation appearing twice). -/
def getRequire (external : List String) : String :=
  bannerPre ++ defineDeps external ++ bannerMid ++ defineDeps external ++ bannerPost

/-- The footer template after the `${moduleName}` interpolations
(compiler.ts lines 92-108). -/
def footerBody : String :=
  "if (typeof module.exports == \"object\" && typeof exports == \"object\") \x7b\n  var __cp = (to, from, except, desc) => \x7b\n    if ((from && typeof from === \"object\") || typeof from === \"function\") \x7b\n      for (let key of Object.getOwnPropertyNames(from)) \x7b\n        if (!Object.prototype.hasOwnProperty.call(to, key) && key !== except)\n        Object.defineProperty(to, key, \x7b\n          get: () => from[key],\n          enumerable: !(desc = Object.getOwnPropertyDescriptor(from, key)) || desc.enumerable,\n        \x7d);\n      \x7d\n    \x7d\n    return to;\n  \x7d;\n  module.exports = __cp(module.exports, exports);\n\x7d\nreturn module.exports;\n\x7d))"

/-- compiler.ts lines 89-109: the footer. -/
def getFooter (moduleName : String) : String :=
  "\nmodule.exports[\"" ++ moduleName ++ "\"] = " ++ moduleName ++ ";\n" ++ footerBody

/-! ## Engine request assembly (compiler.ts lines 42-56 and 144-186) -/

/-- The engine plugins assembled in `build()` (compiler.ts lines 175-184).
`rollupProxy` carries the chain it wraps: `[watchPlugin(), ...options.plugins]`
(line 144), identified here by plugin names with `"watch"` for `watchPlugin()`. -/
inductive PluginTag
  | nodePolyfill
  | globalExternal
  | entry
  | rollupProxy (chain : List String)
  | bare
  | http
  | unpkg
  | memfs
  deriving DecidableEq, Repr

/-- compiler.ts lines 175-184: the plugin array with its `&&`-guarded entries
and the trailing `.filter(Boolean)`. -/
def enginePlugins (o : ROptions) : List PluginTag :=
  ([ if o.platform = .browser then some .nodePolyfill else none,
     if o.platform = .browser then some .globalExternal else none,
     some .entry,
     some (.rollupProxy ("watch" :: o.plugins)),
     some .bare,
     if o.http then some .http else none,
     if o.unpkg then some .unpkg else none,
     if o.memfs then some .memfs else none ] : List (Option PluginTag)).filterMap id

/-- The platform-dependent fallback externals of compiler.ts lines 145-149.
Unreachable in `build()`: `this.options.external` is never undefined after
`normalizeOptions`, so `?? (...)` always takes the left operand. -/
def platformFallbackExternal : Platform → List String
  | .node => ["esbuild", "fsevents"]
  | .browser => ["esbuild", "fsevents", "chokidar", "yargs"]

/-- Host-process environment consulted by `build()` (`process.env.NODE_ENV`). -/
structure HostEnv where
  nodeEnv : Option String := none
  deriving DecidableEq, Repr

/-- `process.env.NODE_ENV || "production"` (JS `||`: the empty string is falsy). -/
def nodeEnvOrProduction (env : HostEnv) : String :=
  match env.nodeEnv with
  | none => "production"
  | some s => if s = "" then "production" else s

/-- `JSON.stringify` of a string, modelled as quote-wrapping (no escapes occur
in the values used here). -/
def jsonString (s : String) : String := "\"" ++ s ++ "\""

/-- `path.join(__dirname, "../shim/node.js")`; `__dirname` is a runtime value,
kept symbolic, and `join`-normalisation is not modelled (no theorem uses it). -/
def injectShim : String := pathJoin "__dirname" "../shim/node.js"

/-- The esbuild request produced by `normalizeEsbuildOptions` applied to the
object literal of compiler.ts lines 152-185: every field of
`defaultEsbuildOptions` (lines 42-48) except `bundle` is overridden by the
literal, so the merge is written out directly with `bundle := true`. -/
structure EsbuildRequest where
  entryPoints : List String
  incremental : Bool
  logLevel : String
  write : Bool
  outfile : String
  format : String
  minify : Bool
  globalName : String
  defineNode : String
  defineNodeEnv : String
  external : List String
  platform : Platform
  banner : String
  footer : String
  inject : List String
  plugins : List PluginTag
  bundle : Bool
  deriving DecidableEq, Repr

/-- compiler.ts lines 144-186: the full-build request. The two `??` at lines
145-150 (`this.options.external ?? ...`, `this.options.globalName ?? "bundler"`)
always take their left operand, because after `normalizeOptions` neither field
can be undefined; see `platformFallbackExternal`. -/
def mkBuildRequest (env : HostEnv) (o : ROptions) : EsbuildRequest :=
  { entryPoints := ["<stdin>"]
    incremental := true
    logLevel := "error"
    write := !o.memfs
    outfile := o.output
    format := o.format
    minify := true
    globalName := o.globalName
    defineNode := if o.platform = .node then "true" else "false"
    defineNodeEnv := jsonString (nodeEnvOrProduction env)
    external := o.external
    platform := o.platform
    banner := if o.platform = .browser then "var global = globalThis;" else getRequire o.external
    footer := if o.platform = .browser then "" else getFooter o.globalName
    inject := if o.platform = .node then [] else [injectShim]
    plugins := enginePlugins o
    bundle := true }

/-! ## The build step (compiler.ts lines 136-202) -/

/-- One output artifact (`result.outputFiles[i]`). -/
structure OutputFile where
  path : String
  text : String
  deriving DecidableEq, Repr

/-- The engine's build handle as far as the orchestrator reads it:
`outputFiles` is present only when the engine kept the output in memory. -/
structure BuildResult where
  outputFiles : Option (List OutputFile) := none
  deriving DecidableEq, Repr

/-- Outcome of one engine call (`build(...)` or `handle.rebuild()`): a new
handle, or a raised error. -/
inductive EngineOutcome
  | ok (r : BuildResult)
  | err (e : String)
  deriving DecidableEq, Repr

/-- An engine invocation recorded in the trace. -/
inductive EngineCall
  | fullBuild (req : EsbuildRequest)
  | rebuild
  deriving DecidableEq, Repr

/-- A mutating filesystem-adapter call recorded in the trace
(`existsSync` is a query and is modelled by reading the directory set). -/
inductive FsCall
  | mkdir (dir : String)
  | write (path : String) (text : String)
  deriving DecidableEq, Repr

/-- Observable effects of one `build()` invocation. `raised` is the exception
propagated to the caller (the `async` method's promise rejection), if any. -/
structure BuildTrace where
  startHook : Nat
  doneHook : List BuildResult
  engineCalls : List EngineCall
  fsCalls : List FsCall
  raised : Option String
  deriving DecidableEq, Repr

/-- The mutable fields of `Compiler` read and written by `build()`. -/
structure CompilerState where
  result : Option BuildResult := none
  firstBuildPass : Bool := false
  deriving DecidableEq, Repr

/-- Field initialisers of the `Compiler` class (lines 112-114). -/
def initialState : CompilerState := {}

/-- Which engine outcome the invocation consumes: the rebuild outcome when a
handle exists (line 141), the full-build outcome otherwise. -/
def currentOutcome (st : CompilerState) (fullO rebO : EngineOutcome) : EngineOutcome :=
  match st.result with
  | some _ => rebO
  | none => fullO

/-- `path.dirname`, POSIX model: text before the last `/`; `"."` when there is
no slash, `"/"` when the only slash is leading. -/
def dirname (p : String) : String :=
  match p.data.reverse.dropWhile (fun c => c != '/') with
  | [] => "."
  | [_] => "/"
  | _ :: rest => String.mk rest.reverse

/-- One iteration of the memfs `forEach` (compiler.ts lines 190-195): check
`existsSync(path.dirname(x.path))` against the adapter's directory set, issue
`mkdirSync` when absent (which adds the directory to the set), then issue
`writeFileSync(x.path, x.text)`. -/
def memfsStep (acc : List FsCall × List String) (x : OutputFile) : List FsCall × List String :=
  let d := dirname x.path
  if acc.2.contains d then
    (acc.1 ++ [.write x.path x.text], acc.2)
  else
    (acc.1 ++ [.mkdir d, .write x.path x.text], acc.2 ++ [d])

/-- The whole memfs `forEach` over the artifacts, starting from the adapter's
current directory set; returns the adapter calls issued and the final set. -/
def memfsRun (dirs : List String) (files : List OutputFile) : List FsCall × List String :=
  files.foldl memfsStep ([], dirs)

/-- `Compiler.build` (compiler.ts lines 136-202) as a step function.

Inputs: the normalized options, the host environment, the current state, the
outcome the engine would report for a full build (`fullO`) and for a rebuild of
the existing handle (`rebO`), the directories currently existing in the
filesystem adapter, and the (unused) `watch` parameter.

Faithful control flow: `hooks?.start?.()` fires first (line 138); inside the
`try`, the engine is called (rebuild when a handle exists, else a full build
with the assembled request); a raised engine error aborts the `try` body —
skipping the memfs block and the `done` hook — and propagates out of the
method, while the `finally` (lines 199-201) still sets `firstBuildPass`. On
success, the handle is replaced, the memfs block runs when `options.memfs`,
and `hooks?.done?.(this.result!)` fires once. -/
def buildStep (env : HostEnv) (o : ROptions) (st : CompilerState)
    (fullO rebO : EngineOutcome) (fsDirs : List String) (watch : Bool := false) :
    CompilerState × BuildTrace :=
  let startN := if o.hooks.hasStart then 1 else 0
  match st.result with
  | some r =>
    match rebO with
    | .err e =>
        ({ result := some r, firstBuildPass := true },
         { startHook := startN, doneHook := [], engineCalls := [.rebuild],
           fsCalls := [], raised := some e })
    | .ok r' =>
        ({ result := some r', firstBuildPass := true },
         { startHook := startN
           doneHook := if o.hooks.hasDone then [r'] else []
           engineCalls := [.rebuild]
           fsCalls := if o.memfs then (memfsRun fsDirs (r'.outputFiles.getD [])).1 else []
           raised := none })
  | none =>
    match fullO with
    | .err e =>
        ({ result := none, firstBuildPass := true },
         { startHook := startN, doneHook := [],
           engineCalls := [.fullBuild (mkBuildRequest env o)],
           fsCalls := [], raised := some e })
    | .ok r' =>
        ({ result := some r', firstBuildPass := true },
         { startHook := startN
           doneHook := if o.hooks.hasDone then [r'] else []
           engineCalls := [.fullBuild (mkBuildRequest env o)]
           fsCalls := if o.memfs then (memfsRun fsDirs (r'.outputFiles.getD [])).1 else []
           raised := none })

/-! ## The debounced watcher callback (compiler.ts lines 117-131) -/

/-- Leading-edge debounce (`debounce(fn, 500, true)` of the `debounce`
package): each incoming event resets the quiet-period timer to `wait` ms; the
callback runs at an event exactly when no timer is pending, i.e. at the first
event and at any event at least `wait` ms after its predecessor. Events are
`(time, payload)` pairs with nondecreasing times; `last` is the time of the
previous event, if any. Returns the events at which the callback ran. -/
def debounceFired {σ : Type} (wait : Nat) : Option Nat → List (Nat × σ) → List (Nat × σ)
  | _, [] => []
  | none, e :: rest => e :: debounceFired wait (some e.1) rest
  | some last, e :: rest =>
      (if last + wait ≤ e.1 then [e] else []) ++ debounceFired wait (some e.1) rest

/-- The watcher handler registered in the constructor (lines 119-130):
the debounced callback invokes `this.build(false)` only when
`firstBuildPass` is already true. Returns the events that cause a `build()`
call. (`firstBuildPass` is never reset, so it is constant over a window.) -/
def watchRebuilds {σ : Type} (firstBuildPass : Bool) (evs : List (Nat × σ)) : List (Nat × σ) :=
  if firstBuildPass then debounceFired 500 none evs else []

/-- Every event of `rest` falls strictly within `wait` ms of its predecessor,
starting from an event at time `last` — i.e. all of them land in the same
debounce window. -/
def withinWindow (wait : Nat) : Nat → List (Nat × Nat) → Bool
  | _, [] => true
  | last, e :: rest => decide (e.1 < last + wait) && withinWindow wait e.1 rest

/-! ## Semantics of the `__cp` helper emitted in the footer
(compiler.ts lines 93-105)

The footer text is data to the orchestrator; to settle claims about what it
does at load time, JS objects are modelled as ordered lists of own
properties. A property's value is produced by its `get` function from an
access "time" `w : Nat`, so that getter-backed properties (whose value can
differ between accesses) and plain data properties (constant `get`) are both
representable, and laziness is observable: a forwarding accessor defined by
`__cp` reads the source object at access time, not at copy time. -/

/-- A JS value, as far as these claims need one. -/
inductive JVal
  | undefined
  | num (n : Int)
  | str (s : String)

/-- One own property of a JS object. -/
structure JProp where
  key : String
  enumerable : Bool
  get : Nat → JVal

/-- A JS object: its own properties in definition order. -/
abbrev JObj := List JProp

/-- `Object.prototype.hasOwnProperty.call(o, k)`. -/
def hasOwn (o : JObj) (k : String) : Bool :=
  (o.find? (fun p => p.key == k)).isSome

/-- Reading `o[k]` at access time `w`: runs the property's getter; `undefined`
when the property is absent. -/
def readProp (o : JObj) (k : String) (w : Nat) : JVal :=
  match o.find? (fun p => p.key == k) with
  | some p => p.get w
  | none => .undefined

/-- `!(desc = Object.getOwnPropertyDescriptor(from, key)) || desc.enumerable`
(line 99): the descriptor always exists for an own property, so this is its
`enumerable` flag. -/
def descEnumerable (o : JObj) (k : String) : Bool :=
  match o.find? (fun p => p.key == k) with
  | some p => p.enumerable
  | none => true

/-- The loop body of `__cp` for one `key` (lines 96-100): when `to` does not
already own `key` and `key !== except`, define on `to` a forwarding accessor
`get: () => from[key]` whose enumerability mirrors `from`'s descriptor;
otherwise leave `to` unchanged. -/
def cpStep (from_ : JObj) (except_ : Option String) (acc : JObj) (key : String) : JObj :=
  let exceptOk := match except_ with
    | some e => key != e
    | none => true
  if !hasOwn acc key && exceptOk then
    acc ++ [⟨key, descEnumerable from_ key, fun w => readProp from_ key w⟩]
  else acc

/-- `__cp(to, from, except)` (lines 93-104): iterate
`Object.getOwnPropertyNames(from)` with `cpStep`. (The guard at line 94 holds
for every object modelled here.) The footer calls it as
`__cp(module.exports, exports)`, i.e. with `except` undefined. -/
def jsCp (dst from_ : JObj) (except_ : Option String) : JObj :=
  (from_.map (fun p => p.key)).foldl (cpStep from_ except_) dst

/-! ## Character-level view of the dependency enumeration (for claim C8) -/

/-- `x` contains no quote character, so `'${x}'` round-trips. -/
def qcFree (x : String) : Bool := !(x.data.contains qc)

/-- `defineDeps` at the level of character lists:
`depsL [n1, ..., nk] = 'n1', ..., 'nk'`. -/
def depsL : List (List Char) → List Char
  | [] => []
  | [x] => qc :: (x ++ [qc])
  | x :: y :: xs => qc :: (x ++ qc :: ',' :: ' ' :: depsL (y :: xs))

/-! ## Concrete fixtures used by counterexamples and witnesses -/

/-- A host environment with `NODE_ENV` unset. -/
def demoEnv : HostEnv := {}

/-- Lifecycle hooks with both `start` and `done` supplied. -/
def demoHooks : Hooks := { hasStart := true, hasDone := true }

/-- A sparse configuration with hooks supplied and memfs enabled. -/
def demoSparse : CompilerOptions :=
  { input := "src/index.ts", output := "dist/out.js",
    hooks := some demoHooks, memfs := some true }

/-- `normalizeOptions` applied to `demoSparse`. -/
def demoOptions : ROptions := normalizeOptions "/proj" demoSparse

/-- A sparse configuration that supplies no `external` and no `platform`
(so the platform defaults to `node`). -/
def demoSparseNoExternal : CompilerOptions :=
  { input := "src/index.ts", output := "dist/out.js" }

/-- A sparse configuration with the `unpkg` importer enabled. -/
def demoSparseUnpkg : CompilerOptions :=
  { input := "src/index.ts", output := "dist/out.js", unpkg := some true }

/-- `normalizeOptions` applied to `demoSparseUnpkg`. -/
def demoUnpkgOptions : ROptions := normalizeOptions "/proj" demoSparseUnpkg

/-- A resolution capability: can resolve a specifier iff the plugin is the
bare-module resolver or the registry (unpkg) importer. -/
def canDemo : PluginTag → Bool := fun t => t == .bare || t == .unpkg

/-- An engine result holding one in-memory artifact two directory levels
below the adapter root. -/
def demoDeepResult : BuildResult :=
  { outputFiles := some [{ path := "/out/sub/a.js", text := "text" }] }

/-- Two watcher events inside one 500 ms debounce window, with distinct
payloads standing for the filesystem state after each event. -/
def demoEvents : List (Nat × Nat) := [(0, 0), (100, 1)]

end Bundler

/-! # Theorems

Helper lemmas first, then one theorem per claim (with counterexamples for
claims the code refutes and witnesses for theorems with hypotheses). -/

namespace Bundler

/-- `String.data` determines the string. -/
theorem string_data_inj {s t : String} (h : s.data = t.data) : s = t := by
  cases s; cases t; exact congrArg String.mk h

theorem quote1_data (x : String) : (quote1 x).data = qc :: (x.data ++ [qc]) := by
  simp [quote1, String.data_append]
  rfl

/-- `defineDeps` agrees with its character-level counterpart `depsL`. -/
theorem defineDeps_data (E : List String) :
    (defineDeps E).data = depsL (E.map String.data) := by
  induction E with
  | nil => rfl
  | cons x xs ih =>
    cases xs with
    | nil => simp [defineDeps, joinComma, depsL, quote1_data]
    | cons y ys =>
      have hx : defineDeps (x :: y :: ys) = quote1 x ++ ", " ++ defineDeps (y :: ys) := rfl
      have hys : (", " : String).data = [',', ' '] := rfl
      simp [hx, String.data_append, quote1_data, hys, depsL, ih]

/-- Splitting at the first quote character is unambiguous for quote-free
prefixes. -/
theorem splitAtQc : ∀ (x y r r' : List Char), qc ∉ x → qc ∉ y →
    x ++ qc :: r = y ++ qc :: r' → x = y ∧ r = r' := by
  intro x
  induction x with
  | nil =>
    intro y r r' _ hy h
    cases y with
    | nil => simpa using h
    | cons d ys =>
      simp only [List.nil_append, List.cons_append, List.cons.injEq] at h
      rw [← h.1] at hy
      simp at hy
  | cons c xs ih =>
    intro y r r' hx hy h
    cases y with
    | nil =>
      simp only [List.cons_append, List.nil_append, List.cons.injEq] at h
      rw [h.1] at hx
      simp at hx
    | cons d ys =>
      simp only [List.cons_append, List.cons.injEq] at h
      obtain ⟨hcd, htail⟩ := h
      have hx' : qc ∉ xs := fun hm => hx (List.mem_cons_of_mem _ hm)
      have hy' : qc ∉ ys := fun hm => hy (List.mem_cons_of_mem _ hm)
      obtain ⟨h1, h2⟩ := ih ys r r' hx' hy' htail
      exact ⟨by rw [hcd, h1], h2⟩

/-- The quoted, comma-joined enumeration determines the list of names, as
long as the names themselves are quote-free. -/
theorem depsL_inj : ∀ (L L' : List (List Char)), (∀ x ∈ L, qc ∉ x) → (∀ x ∈ L', qc ∉ x) →
    depsL L = depsL L' → L = L' := by
  intro L
  induction L with
  | nil =>
    intro L' _ _ h
    cases L' with
    | nil => rfl
    | cons y ys => cases ys <;> simp [depsL] at h
  | cons x xs ih =>
    intro L' hL hL' h
    have hxq : qc ∉ x := hL x (List.mem_cons_self x xs)
    cases L' with
    | nil => cases xs <;> simp [depsL] at h
    | cons y ys =>
      have hyq : qc ∉ y := hL' y (List.mem_cons_self y ys)
      cases xs with
      | nil =>
        cases ys with
        | nil =>
          simp only [depsL, List.cons.injEq] at h
          obtain ⟨h1, -⟩ := splitAtQc x y [] [] hxq hyq (by simpa using h)
          rw [h1]
        | cons y' ys' =>
          simp only [depsL, List.cons.injEq] at h
          obtain ⟨-, h2⟩ := splitAtQc x y [] (',' :: ' ' :: depsL (y' :: ys')) hxq hyq
            (by simpa using h)
          simp at h2
      | cons x' xs' =>
        cases ys with
        | nil =>
          simp only [depsL, List.cons.injEq] at h
          obtain ⟨-, h2⟩ := splitAtQc x y (',' :: ' ' :: depsL (x' :: xs')) [] hxq hyq
            (by simpa using h)
          simp at h2
        | cons y' ys' =>
          simp only [depsL, List.cons.injEq] at h
          obtain ⟨h1, h2⟩ := splitAtQc x y (',' :: ' ' :: depsL (x' :: xs'))
            (',' :: ' ' :: depsL (y' :: ys')) hxq hyq (by simpa using h)
          simp only [List.cons.injEq, true_and] at h2
          have := ih (y' :: ys') (fun z hz => hL z (List.mem_cons_of_mem _ hz))
            (fun z hz => hL' z (List.mem_cons_of_mem _ hz)) h2
          rw [h1, this]

theorem qcFree_data {x : String} (h : qcFree x = true) : qc ∉ x.data := by
  have h' : x.data.contains qc = false := by simpa [qcFree] using h
  simpa using h'

/-- `defineDeps` is injective on lists of quote-free names. -/
theorem defineDeps_inj (E E' : List String)
    (hE : E.all qcFree = true) (hE' : E'.all qcFree = true)
    (h : defineDeps E = defineDeps E') : E = E' := by
  have hmap : E.map String.data = E'.map String.data := by
    refine depsL_inj _ _ ?_ ?_ ?_
    · intro x hx
      obtain ⟨s, hs, rfl⟩ := List.mem_map.mp hx
      exact qcFree_data (List.all_eq_true.mp hE s hs)
    · intro x hx
      obtain ⟨s, hs, rfl⟩ := List.mem_map.mp hx
      exact qcFree_data (List.all_eq_true.mp hE' s hs)
    · rw [← defineDeps_data, ← defineDeps_data, h]
  have hinj : Function.Injective String.data := fun s t hst => string_data_inj hst
  exact List.map_injective_iff.mpr hinj hmap

/-- Claim C8: on the server platform, for an externals set `E` (quote-free
names) and a global export name `G`, the generated banner enumerates in its
definer branch exactly the names of `E` — `defineDeps E` appears as the
`defineDepsList` literal and as the `define(...)` dependency arguments, and
the enumeration determines `E` (equal enumerations force equal externals
lists, so no name is missing and none is extra) — and the generated footer
assigns the wrapped module's export to `G` via `module.exports["G"] = G;`. -/
theorem c8_wrapper_roundtrip (E E' : List String) (G : String)
    (hE : E.all qcFree = true) (hE' : E'.all qcFree = true)
    (hdeps : defineDeps E' = defineDeps E) :
    getRequire E = bannerPre ++ defineDeps E ++ bannerMid ++ defineDeps E ++ bannerPost
    ∧ E' = E
    ∧ getFooter G = "\nmodule.exports[\"" ++ G ++ "\"] = " ++ G ++ ";\n" ++ footerBody := by
  exact ⟨rfl, defineDeps_inj E' E hE' hE hdeps, rfl⟩

/-- Witness for `c8_wrapper_roundtrip` at `E = E' = ["left-pad"]`,
`G = "myLib"` (the spec's own scenario). -/
theorem c8_wrapper_roundtrip_witness :
    getRequire ["left-pad"] =
      bannerPre ++ defineDeps ["left-pad"] ++ bannerMid ++ defineDeps ["left-pad"] ++ bannerPost
    ∧ getFooter "myLib" =
      "\nmodule.exports[\"" ++ "myLib" ++ "\"] = " ++ "myLib" ++ ";\n" ++ footerBody := by
  have h := c8_wrapper_roundtrip ["left-pad"] ["left-pad"] "myLib" (by decide) (by decide) rfl
  exact ⟨h.1, h.2.2⟩

/-- `List.find?` returns the earlier of the only two satisfying elements of a
duplicate-free list. -/
theorem find_first_of_pair {α : Type} (can : α → Bool) :
    ∀ (l : List α) (p q : α), List.Sublist [p, q] l → can p = true → can q = true →
      (∀ r ∈ l, can r = true → r = p ∨ r = q) → l.Nodup → l.find? can = some p := by
  intro l
  induction l with
  | nil =>
    intro p q hsub
    simp at hsub
  | cons x xs ih =>
    intro p q hsub hp hq honly hnd
    rcases List.sublist_cons_iff.mp hsub with h' | ⟨l', hx, h'⟩
    · by_cases hcx : can x = true
      · rcases honly x (List.mem_cons_self x xs) hcx with rfl | rfl
        · simp [List.find?, hcx]
        · have hqmem : x ∈ xs := h'.subset (by simp)
          have := (List.nodup_cons.mp hnd).1
          exact absurd hqmem this
      · have hrec := ih p q h' hp hq
          (fun r hr hcr => honly r (List.mem_cons_of_mem _ hr) hcr)
          (List.nodup_cons.mp hnd).2
        simp only [List.find?, Bool.not_eq_true] at hcx ⊢
        rw [hcx]
        exact hrec
    · obtain rfl : x = p := by
        injection hx with h1 h2
        exact h1.symm
      simp [List.find?, hp]

/-- The assembled pipeline, spelt out segment by segment. -/
theorem enginePlugins_eq (o : ROptions) :
    enginePlugins o =
      (if o.platform = .browser then [.nodePolyfill, .globalExternal] else [])
      ++ [.entry, .rollupProxy ("watch" :: o.plugins), .bare]
      ++ (if o.http then [.http] else [])
      ++ (if o.unpkg then [.unpkg] else [])
      ++ (if o.memfs then [PluginTag.memfs] else []) := by
  obtain ⟨i, ou, fsr, up, wa, pl, hk, cw, ex, pf, fm, mf, gn, ht⟩ := o
  cases pf <;> cases ht <;> cases up <;> cases mf <;> rfl

/-- No plugin appears twice in the assembled pipeline. -/
theorem enginePlugins_nodup (o : ROptions) : (enginePlugins o).Nodup := by
  obtain ⟨i, ou, fsr, up, wa, pl, hk, cw, ex, pf, fm, mf, gn, ht⟩ := o
  cases pf <;> cases ht <;> cases up <;> cases mf <;> simp [enginePlugins]

/-- Claim C5: for every configuration the pipeline has the fixed order —
platform polyfill and external-global mapping iff the platform is browser,
then entry substitution, then the user-plugin proxy (wrapping the watch
plugin and the user plugins), then bare-module resolution, then the
remote-HTTP importer iff `http`, then the registry importer iff `unpkg`, then
memory-filesystem output iff `memfs` — and under first-match resolution (the
engine consults plugins in list order), a specifier resolvable by exactly two
capabilities `p` and `q`, with `p` occurring before `q`, resolves to `p`. -/
theorem c5_pipeline_order (o : ROptions) (can : PluginTag → Bool) (p q : PluginTag)
    (hsub : List.Sublist [p, q] (enginePlugins o))
    (hp : can p = true) (hq : can q = true)
    (honly : ∀ r ∈ enginePlugins o, can r = true → r = p ∨ r = q) :
    enginePlugins o =
      (if o.platform = .browser then [.nodePolyfill, .globalExternal] else [])
      ++ [.entry, .rollupProxy ("watch" :: o.plugins), .bare]
      ++ (if o.http then [.http] else [])
      ++ (if o.unpkg then [.unpkg] else [])
      ++ (if o.memfs then [PluginTag.memfs] else [])
    ∧ (enginePlugins o).find? can = some p := by
  exact ⟨enginePlugins_eq o,
    find_first_of_pair can (enginePlugins o) p q hsub hp hq honly (enginePlugins_nodup o)⟩

/-- Witness for `c5_pipeline_order`: with `unpkg` enabled, a specifier
resolvable by both the bare-module resolver and the registry importer is
resolved by the bare-module resolver, which comes first. -/
theorem c5_pipeline_order_witness :
    enginePlugins demoUnpkgOptions =
      (if demoUnpkgOptions.platform = .browser then [.nodePolyfill, .globalExternal] else [])
      ++ [.entry, .rollupProxy ("watch" :: demoUnpkgOptions.plugins), .bare]
      ++ (if demoUnpkgOptions.http then [.http] else [])
      ++ (if demoUnpkgOptions.unpkg then [.unpkg] else [])
      ++ (if demoUnpkgOptions.memfs then [PluginTag.memfs] else [])
    ∧ (enginePlugins demoUnpkgOptions).find? canDemo = some .bare := by
  exact c5_pipeline_order demoUnpkgOptions canDemo .bare .unpkg (by decide) (by decide)
    (by decide) (by decide)

end Bundler

namespace Bundler

/-- Reading an absent property yields `undefined`. -/
theorem readProp_of_not_hasOwn {o : JObj} {k : String} (h : hasOwn o k = false) (w : Nat) :
    readProp o k w = .undefined := by
  cases hf : o.find? (fun p => p.key == k)
  · simp [readProp, hf]
  · exfalso
    simp [hasOwn, hf] at h

theorem hasOwn_append_single (acc : JObj) (p : JProp) (k : String) :
    hasOwn (acc ++ [p]) k = (hasOwn acc k || (p.key == k)) := by
  simp only [hasOwn, List.find?_append]
  cases h : acc.find? (fun q => q.key == k) <;>
    cases hpk : p.key == k <;>
      simp [List.find?, hpk]

theorem readProp_append_single (acc : JObj) (p : JProp) (k : String) (w : Nat) :
    readProp (acc ++ [p]) k w =
      if hasOwn acc k then readProp acc k w
      else if p.key == k then p.get w else .undefined := by
  simp only [readProp, hasOwn, List.find?_append]
  cases h : acc.find? (fun q => q.key == k) <;>
    cases hpk : p.key == k <;>
      simp [List.find?, hpk, h]

/-- When `to` does not yet own `key`, `cpStep` appends the forwarding
accessor. -/
theorem cpStep_none_app {acc : JObj} {k' : String} (h : hasOwn acc k' = false) (from_ : JObj) :
    cpStep from_ none acc k' =
      acc ++ [⟨k', descEnumerable from_ k', fun w => readProp from_ k' w⟩] := by
  simp [cpStep, h]

/-- When `to` already owns `key`, `cpStep` is the identity. -/
theorem cpStep_none_skip {acc : JObj} {k' : String} (h : hasOwn acc k' = true) (from_ : JObj) :
    cpStep from_ none acc k' = acc := by
  simp [cpStep, h]

theorem cpStep_hasOwn (from_ acc : JObj) (k' k : String) :
    hasOwn (cpStep from_ none acc k') k = (hasOwn acc k || (k' == k)) := by
  cases hk' : hasOwn acc k'
  · rw [cpStep_none_app hk', hasOwn_append_single]
  · rw [cpStep_none_skip hk']
    cases hkk : k' == k
    · simp
    · have heq : k' = k := by simpa using hkk
      subst heq
      simp [hk']

theorem cpStep_readProp (from_ acc : JObj) (k' k : String) (w : Nat) :
    readProp (cpStep from_ none acc k') k w =
      (if hasOwn acc k then readProp acc k w
       else if k' == k then readProp from_ k w
       else readProp acc k w) := by
  cases hk' : hasOwn acc k'
  · rw [cpStep_none_app hk', readProp_append_single]
    by_cases hacc : hasOwn acc k
    · simp [hacc]
    · have haccF : hasOwn acc k = false := by simpa using hacc
      cases hkk : k' == k
      · simp [haccF, hkk, readProp_of_not_hasOwn haccF]
      · have heq : k' = k := by simpa using hkk
        subst heq
        simp [haccF]
  · rw [cpStep_none_skip hk']
    by_cases hacc : hasOwn acc k
    · simp [hacc]
    · have haccF : hasOwn acc k = false := by simpa using hacc
      cases hkk : k' == k
      · simp [haccF, hkk]
      · have heq : k' = k := by simpa using hkk
        subst heq
        rw [hk'] at haccF
        simp at haccF

/-- Invariant of the `__cp` fold: after processing `keys`, a key is owned iff
it was owned before or occurs in `keys`, and reading it forwards to the
accumulator for previously-owned keys and to `from` for copied ones. -/
theorem cpFold_spec (from_ : JObj) (w : Nat) :
    ∀ (keys : List String) (acc : JObj) (k : String),
      hasOwn (keys.foldl (cpStep from_ none) acc) k = (hasOwn acc k || keys.contains k)
      ∧ readProp (keys.foldl (cpStep from_ none) acc) k w =
          (if hasOwn acc k then readProp acc k w
           else if keys.contains k then readProp from_ k w
           else readProp acc k w) := by
  intro keys
  induction keys with
  | nil =>
    intro acc k
    constructor
    · simp
    · cases h : hasOwn acc k <;> simp
  | cons k' rest ih =>
    intro acc k
    obtain ⟨ihA, ihB⟩ := ih (cpStep from_ none acc k') k
    have hfold : (k' :: rest).foldl (cpStep from_ none) acc
        = rest.foldl (cpStep from_ none) (cpStep from_ none acc k') := rfl
    constructor
    · rw [hfold, ihA, cpStep_hasOwn]
      by_cases hkk : k' = k
      · subst hkk
        simp [List.contains_cons]
      · have h1 : (k' == k) = false := by simpa using hkk
        have h2 : (k == k') = false := by simpa using (Ne.symm hkk)
        simp [List.contains_cons, h1, h2, Bool.or_assoc, Ne.symm hkk]
    · rw [hfold, ihB, cpStep_hasOwn, cpStep_readProp]
      by_cases hacc : hasOwn acc k
      · simp [hacc]
      · have haccF : hasOwn acc k = false := by simpa using hacc
        by_cases hkk : k' = k
        · subst hkk
          simp [haccF, List.contains_cons]
        · have h1 : (k' == k) = false := by simpa using hkk
          have h2 : (k == k') = false := by simpa using (Ne.symm hkk)
          simp [haccF, h1, h2, List.contains_cons, Ne.symm hkk]

/-- `Object.getOwnPropertyNames(from)` contains `k` iff `from` owns `k`. -/
theorem keys_contains_eq_hasOwn (from_ : JObj) (k : String) :
    (from_.map (fun p => p.key)).contains k = hasOwn from_ k := by
  induction from_ with
  | nil => rfl
  | cons p ps ih =>
    by_cases hk : p.key = k
    · simp [hasOwn, List.find?, hk, List.contains_cons]
    · have h1 : (p.key == k) = false := by simpa using hk
      have h2 : (k == p.key) = false := by simpa using (Ne.symm hk)
      simp only [List.map_cons, List.contains_cons, h2, Bool.false_or, hasOwn, List.find?, h1]
      simpa [hasOwn] using ih

/-- Claim C9: the footer's `__cp(module.exports, exports)` merge leaves every
key already owned by the module-exports object bound exactly as before (its
reads are unchanged at every access time, even when the bare exports object
owns the same key), and copies every own property of the bare exports object
(in particular every enumerable one) onto the module-exports object as a
lazily-evaluated forwarding accessor: reading a copied key at access time `w`
re-reads the bare exports object at `w`, so getter semantics are preserved
and no value is read at copy time. -/
theorem c9_footer_merge (dst from_ : JObj) (k : String) (w : Nat) :
    readProp (jsCp dst from_ none) k w =
      (if hasOwn dst k then readProp dst k w
       else if hasOwn from_ k then readProp from_ k w
       else readProp dst k w)
    ∧ hasOwn (jsCp dst from_ none) k = (hasOwn dst k || hasOwn from_ k) := by
  obtain ⟨hA, hB⟩ := cpFold_spec from_ w (from_.map (fun p => p.key)) dst k
  constructor
  · rw [jsCp, hB, keys_contains_eq_hasOwn]
  · rw [jsCp, hA, keys_contains_eq_hasOwn]

end Bundler

namespace Bundler

/-- Claim C1, amended: per `build()` invocation, the `done` hook fires exactly
once — with the updated handle — when the engine call succeeds (and the hook
is supplied), but when the engine's build or rebuild raises, the error
propagates to the caller (the async method's promise rejects), the `done`
hook is not invoked at all, and the `finally` clause only sets
`firstBuildPass`. -/
theorem c1_done_on_success_raise_on_failure (env : HostEnv) (o : ROptions) (st : CompilerState)
    (fullO rebO : EngineOutcome) (fsDirs : List String) (w : Bool) :
    (buildStep env o st fullO rebO fsDirs w).2.doneHook =
      (match currentOutcome st fullO rebO, o.hooks.hasDone with
       | .ok r, true => [r]
       | _, _ => [])
    ∧ (buildStep env o st fullO rebO fsDirs w).2.raised =
      (match currentOutcome st fullO rebO with
       | .ok _ => none
       | .err e => some e)
    ∧ (buildStep env o st fullO rebO fsDirs w).1.firstBuildPass = true := by
  rcases st with ⟨res, fbp⟩
  cases res <;> cases fullO <;> cases rebO <;> cases hd : o.hooks.hasDone <;>
    simp [buildStep, currentOutcome, hd]

/-- Claim C1 counterexample: with hooks supplied (`demoOptions`), a first
build whose engine call raises `"boom"` invokes the `done` hook zero times —
not exactly once — and the error propagates to the caller instead of being
caught by the orchestrator. -/
theorem c1_done_exactly_once_counterexample :
    (buildStep demoEnv demoOptions initialState (.err "boom") (.ok {}) [] false).2.doneHook = []
    ∧ (buildStep demoEnv demoOptions initialState (.err "boom") (.ok {}) [] false).2.raised
        = some "boom"
    ∧ demoOptions.hooks.hasDone = true := by
  exact ⟨rfl, rfl, rfl⟩

/-- Claim C2: the handle (`Compiler.result`) changes only on engine success —
a failed first build leaves no handle (`none`) and a failed rebuild leaves the
previous handle in place unchanged — and any invocation from a state without
a handle performs a full engine build with the assembled request, while any
invocation from a state with a handle calls its rebuild. -/
theorem c2_handle_updated_only_on_success (env : HostEnv) (o : ROptions) (st : CompilerState)
    (fullO rebO : EngineOutcome) (fsDirs : List String) (w : Bool)
    (r : BuildResult) (b : Bool) :
    (buildStep env o st fullO rebO fsDirs w).1.result =
      (match st.result, fullO, rebO with
       | none, .ok r', _ => some r'
       | none, .err _, _ => none
       | some _, _, .ok r' => some r'
       | some rp, _, .err _ => some rp)
    ∧ (buildStep env o ⟨none, b⟩ fullO rebO fsDirs w).2.engineCalls
        = [.fullBuild (mkBuildRequest env o)]
    ∧ (buildStep env o ⟨some r, b⟩ fullO rebO fsDirs w).2.engineCalls = [.rebuild] := by
  rcases st with ⟨res, fbp⟩
  cases res <;> cases fullO <;> cases rebO <;> simp [buildStep]

/-- Claim C3: the debounced watcher callback triggers zero `build()` calls
while `firstBuildPass` is false; every `build()` invocation — for every
engine outcome, success or failure — leaves `firstBuildPass` true; and once
`firstBuildPass` is true, a nonempty burst of watcher events triggers at
least one rebuild, so one failed build never blocks watching permanently. -/
theorem c3_first_build_gate {σ : Type} (env : HostEnv) (o : ROptions) (st : CompilerState)
    (fullO rebO : EngineOutcome) (fsDirs : List String) (w : Bool)
    (e : Nat × σ) (rest evs : List (Nat × σ)) :
    watchRebuilds false evs = []
    ∧ (buildStep env o st fullO rebO fsDirs w).1.firstBuildPass = true
    ∧ 1 ≤ (watchRebuilds true (e :: rest)).length := by
  refine ⟨rfl, ?_, ?_⟩
  · rcases st with ⟨res, fbp⟩
    cases res <;> cases fullO <;> cases rebO <;> rfl
  · simp [watchRebuilds, debounceFired]

/-- Claim C10: the boolean `watch` parameter of `build()` is never read, so
`build(true)` and `build(false)` produce the same engine calls, hook
invocations, filesystem writes, raised error and final state. -/
theorem c10_watch_param_no_effect (env : HostEnv) (o : ROptions) (st : CompilerState)
    (fullO rebO : EngineOutcome) (fsDirs : List String) :
    buildStep env o st fullO rebO fsDirs true = buildStep env o st fullO rebO fsDirs false := rfl

/-- Claim C6, amended: the externals passed to the engine always equal the
user-supplied externals list, which normalization defaults to the empty list;
the platform-based fallback of compiler.ts lines 147-149 is dead code because
`this.options.external` is never undefined after `normalizeOptions`. -/
theorem c6_external_amended (procCwd : String) (env : HostEnv) (s : CompilerOptions) :
    (mkBuildRequest env (normalizeOptions procCwd s)).external = s.external.getD [] := rfl

/-- Claim C6 counterexample: for a configuration that supplies no externals
on the (default) node platform, the engine receives `[]`, not the
platform-computed `["esbuild", "fsevents"]`. -/
theorem c6_external_fallback_counterexample :
    (mkBuildRequest demoEnv (normalizeOptions "/proj" demoSparseNoExternal)).external = []
    ∧ (normalizeOptions "/proj" demoSparseNoExternal).platform = .node
    ∧ decide (([] : List String) = platformFallbackExternal .node) = false := by
  exact ⟨rfl, rfl, by decide⟩

/-- Every `mkdirSync` issued by the memfs loop names the immediate parent
directory of one of the artifacts — never an intermediate ancestor. -/
theorem memfsRun_mkdir_mem : ∀ (files : List OutputFile) (acc : List FsCall)
    (dirs0 : List String) (d : String),
    FsCall.mkdir d ∈ (files.foldl memfsStep (acc, dirs0)).1 →
    FsCall.mkdir d ∈ acc ∨ d ∈ files.map (fun x => dirname x.path) := by
  intro files
  induction files with
  | nil =>
    intro acc dirs0 d h
    exact Or.inl h
  | cons x xs ih =>
    intro acc dirs0 d h
    simp only [List.foldl_cons] at h
    by_cases hc : dirname x.path ∈ dirs0
    · rw [show memfsStep (acc, dirs0) x = (acc ++ [.write x.path x.text], dirs0) by
        simp [memfsStep, hc]] at h
      rcases ih _ _ _ h with hl | hr
      · rcases List.mem_append.mp hl with hl' | hl'
        · exact Or.inl hl'
        · simp at hl'
      · exact Or.inr (List.mem_cons_of_mem _ hr)
    · rw [show memfsStep (acc, dirs0) x
          = (acc ++ [.mkdir (dirname x.path), .write x.path x.text], dirs0 ++ [dirname x.path]) by
        simp [memfsStep, hc]] at h
      rcases ih _ _ _ h with hl | hr
      · rcases List.mem_append.mp hl with hl' | hl'
        · exact Or.inl hl'
        · simp only [List.mem_cons, List.mem_singleton] at hl'
          rcases hl' with hl' | hl'
          · injection hl' with hd
            exact Or.inr (by simp [hd])
          · exact absurd hl' (by simp)
      · exact Or.inr (List.mem_cons_of_mem _ hr)

/-- Claim C4, amended: with memfs enabled, adapter writes happen exactly on
engine success (never when the engine raises); for a single artifact whose
parent directory is absent, the adapter receives one non-recursive
`mkdirSync` of the immediate parent followed by one `writeFileSync` of the
artifact's path and text (no call when the parent exists except the write);
and every `mkdirSync` ever issued names an artifact's immediate parent, so
intermediate ancestor directories are never created. -/
theorem c4_memfs_write_discipline (env : HostEnv) (o : ROptions) (st : CompilerState)
    (fullO rebO : EngineOutcome) (fsDirs : List String) (w : Bool) :
    ((buildStep env o st fullO rebO fsDirs w).2.fsCalls =
      match currentOutcome st fullO rebO, o.memfs with
      | .err _, _ => []
      | .ok _, false => []
      | .ok r, true => (memfsRun fsDirs (r.outputFiles.getD [])).1)
    ∧ (∀ (dirs0 : List String) (x : OutputFile),
        (memfsRun dirs0 [x]).1 =
          if dirs0.contains (dirname x.path) then [.write x.path x.text]
          else [.mkdir (dirname x.path), .write x.path x.text])
    ∧ (∀ (dirs0 : List String) (files : List OutputFile),
        ((memfsRun dirs0 files).1.all (fun c =>
          match c with
          | .mkdir d => (files.map (fun x => dirname x.path)).contains d
          | .write _ _ => true)) = true) := by
  refine ⟨?_, ?_, ?_⟩
  · rcases st with ⟨res, fbp⟩
    cases res <;> cases fullO <;> cases rebO <;> cases hm : o.memfs <;>
      simp [buildStep, currentOutcome, hm]
  · intro dirs0 x
    by_cases hc : dirname x.path ∈ dirs0 <;>
      simp [memfsRun, memfsStep, hc]
  · intro dirs0 files
    rw [List.all_eq_true]
    intro c hcmem
    cases c with
    | write p t => rfl
    | mkdir d =>
      rcases memfsRun_mkdir_mem files [] dirs0 d hcmem with hl | hr
      · simp at hl
      · simpa using hr

/-- Claim C4 counterexample: a successful memfs build whose artifact sits two
levels below the adapter root (`/out/sub/a.js`, with neither `/out` nor
`/out/sub` existing) makes the adapter receive only `mkdirSync("/out/sub")`
and the write — no `mkdirSync("/out")` is ever issued, so intermediate
directories are not created as needed. -/
theorem c4_intermediate_dirs_counterexample :
    (buildStep demoEnv demoOptions initialState (.ok demoDeepResult) (.ok {}) ["/"] false).2.fsCalls
      = [.mkdir "/out/sub", .write "/out/sub/a.js" "text"]
    ∧ ((buildStep demoEnv demoOptions initialState
        (.ok demoDeepResult) (.ok {}) ["/"] false).2.fsCalls).contains (.mkdir "/out") = false := by
  exact ⟨by decide, by decide⟩

/-- Events strictly inside the quiet period never fire the debounced
callback. -/
theorem debounceFired_within : ∀ (rest : List (Nat × Nat)) (last : Nat),
    withinWindow 500 last rest = true → debounceFired 500 (some last) rest = [] := by
  intro rest
  induction rest with
  | nil => intro last _; rfl
  | cons e rest ih =>
    intro last h
    simp only [withinWindow, Bool.and_eq_true, decide_eq_true_eq] at h
    obtain ⟨h1, h2⟩ := h
    simp only [debounceFired]
    rw [if_neg (by omega)]
    simpa using ih e.1 h2

/-- Claim C7, amended: for `N ≥ 1` file-change events inside one 500 ms
debounce window (after the first build pass), exactly one rebuild is
triggered — at the leading (first) event of the window, using the state as of
that first event; the trailing events are suppressed. -/
theorem c7_leading_edge (e : Nat × Nat) (rest : List (Nat × Nat))
    (h : withinWindow 500 e.1 rest = true) :
    watchRebuilds true (e :: rest) = [e]
    ∧ (watchRebuilds true (e :: rest)).length = 1 := by
  have hfire : debounceFired 500 none (e :: rest) = [e] := by
    simp [debounceFired, debounceFired_within rest e.1 h]
  exact ⟨by simp [watchRebuilds, hfire], by simp [watchRebuilds, hfire]⟩

/-- Witness for `c7_leading_edge`: two events at t=0 and t=100 in one window
yield exactly the one rebuild at the first event. -/
theorem c7_leading_edge_witness :
    withinWindow 500 ((0, 0) : Nat × Nat).1 [((100 : Nat), (1 : Nat))] = true
    ∧ watchRebuilds true [((0 : Nat), (0 : Nat)), (100, 1)] = [(0, 0)]
    ∧ (watchRebuilds true [((0 : Nat), (0 : Nat)), (100, 1)]).length = 1 := by
  have h : withinWindow 500 ((0, 0) : Nat × Nat).1 [((100 : Nat), (1 : Nat))] = true := by decide
  have hmain := c7_leading_edge (0, 0) [(100, 1)] h
  exact ⟨h, hmain.1, hmain.2⟩

/-- Claim C7 counterexample: for the burst `demoEvents` (states 0 after the
first event, 1 after the last), the single triggered rebuild carries the
first event's state 0, while the state after the last event of the window is
1 — so the rebuild does not use the state after the last event. -/
theorem c7_last_event_counterexample :
    watchRebuilds true demoEvents = [(0, 0)]
    ∧ demoEvents.getLast? = some (100, 1)
    ∧ decide ((((0 : Nat), (0 : Nat)) : Nat × Nat) = (100, 1)) = false := by
  exact ⟨by decide, rfl, by decide⟩

end Bundler
